import Mathlib

/-!
Verification development for the IntelliLearn job-orchestration and
result-caching pipeline. The backend core (JobManager, ContentResolver,
Chunker/Stitcher, OutputValidator) is shipped separately from the frontend
sources; where the deciding code is absent, the corresponding definition is
modelled from the specification and marked as such in its doc comment.
Frontend behaviours (quiz submission, process-page state resets) are embedded
directly from the React sources.
-/

namespace IntelliLearn

/-- A string counts as usable source text when it contains at least one
non-whitespace character (the spec's "non-empty/non-whitespace"). -/
def nonBlank (s : String) : Bool := s.data.any (fun c => !c.isWhitespace)

/-- The five operation types of the pipeline. -/
inductive Operation
  | transcribe
  | summarize
  | translate
  | quiz
  | notes
deriving DecidableEq

/-- A document as the resolver sees it: optional raw extracted text, optional
transcript, optional stored summary. -/
structure Document where
  rawText : Option String
  transcript : Option String
  summary : Option String
deriving DecidableEq

/-- Keeps a candidate only when it is present and non-blank. -/
def candOk : Option String → Option String
  | some s => if nonBlank s then some s else none
  | none => none

/-- First usable (present and non-blank) candidate of an ordered list. -/
def firstUsable : List (Option String) → Option String
  | [] => none
  | c :: cs =>
    match candOk c with
    | some s => some s
    | none => firstUsable cs

/-- Modelled from the spec: the ContentResolver's per-operation candidate
order (spec section 4.2; the resolver source is not in the repository
snapshot, only its documentation under backend docs). Transcription operates
on decoded audio, so it exposes no text candidates. -/
def sourceCandidates (op : Operation) (explicitText : Option String)
    (doc : Document) : List (Option String) :=
  match op with
  | .summarize => [explicitText, doc.transcript, doc.rawText]
  | .translate => [explicitText, doc.summary, doc.transcript, doc.rawText]
  | .quiz => [explicitText, doc.summary, doc.rawText]
  | .notes => [explicitText, doc.summary, doc.rawText]
  | .transcribe => []

/-- Modelled from the spec: ContentResolver.resolve — the first non-blank
candidate for the operation, or nothing when no candidate is usable. -/
def resolve (op : Operation) (explicitText : Option String)
    (doc : Document) : Option String :=
  firstUsable (sourceCandidates op explicitText doc)

/-- Error raised when the resolver finds no usable source text. -/
inductive PipeError
  | noSourceText
deriving DecidableEq

/-- Modelled from the spec: the JobManager's execution of a simple text
operation — resolve the source text, then invoke the InferenceProvider on
it; the second component counts provider invocations, showing that a
resolution failure short-circuits before any provider call. -/
def runOp (provider : String → String) (op : Operation)
    (explicitText : Option String) (doc : Document) :
    Except PipeError String × Nat :=
  match resolve op explicitText doc with
  | none => (Except.error PipeError.noSourceText, 0)
  | some src => (Except.ok (provider src), 1)

theorem firstUsable_all_none {cs : List (Option String)}
    (h : ∀ c ∈ cs, candOk c = none) : firstUsable cs = none := by
  induction cs with
  | nil => rfl
  | cons c cs ih =>
    have hc : candOk c = none := h c (List.mem_cons_self c cs)
    simp only [firstUsable, hc]
    exact ih (fun d hd => h d (List.mem_cons_of_mem c hd))

/-- C3: for the translate operation, the resolver returns the first non-blank
candidate in the order explicit text, document summary, transcript, raw text;
in particular a non-blank summary is selected whenever no explicit text is
usable, even when raw text is also present. -/
theorem translate_precedence (e : Option String) (d : Document) :
    (∀ s, e = some s → nonBlank s = true → resolve .translate e d = some s)
    ∧ (candOk e = none →
        ∀ s, d.summary = some s → nonBlank s = true →
          resolve .translate e d = some s)
    ∧ (candOk e = none → candOk d.summary = none →
        ∀ s, d.transcript = some s → nonBlank s = true →
          resolve .translate e d = some s)
    ∧ (candOk e = none → candOk d.summary = none → candOk d.transcript = none →
        resolve .translate e d = candOk d.rawText) := by
  refine ⟨?_, ?_, ?_, ?_⟩
  · intro s hs hb
    simp [resolve, sourceCandidates, firstUsable, candOk, hs, hb]
  · intro he s hs hb
    simp only [resolve, sourceCandidates, firstUsable]
    rw [he, hs]
    simp [candOk, hb]
  · intro he hsum s hs hb
    simp only [resolve, sourceCandidates, firstUsable]
    rw [he, hsum, hs]
    simp [candOk, hb]
  · intro he hsum htr
    simp only [resolve, sourceCandidates, firstUsable]
    rw [he, hsum, htr]
    cases hr : candOk d.rawText <;> simp [hr]

/-- Closed instance of the translate precedence theorem: no explicit text, a
document holding both a summary and raw text — the summary is selected. -/
theorem translate_precedence_witness :
    resolve .translate none
      ⟨some "raw body", some "transcript body", some "a summary"⟩
      = some "a summary" :=
  (translate_precedence none
      ⟨some "raw body", some "transcript body", some "a summary"⟩).2.1
    rfl "a summary" rfl (by decide)

/-- C4: when no source-text candidate is non-blank, the pipeline fails with
NoSourceTextError and the InferenceProvider is never invoked (zero provider
calls). -/
theorem no_source_short_circuit (provider : String → String) (op : Operation)
    (e : Option String) (d : Document)
    (h : ∀ c ∈ sourceCandidates op e d, candOk c = none) :
    runOp provider op e d = (Except.error PipeError.noSourceText, 0) := by
  have hr : resolve op e d = none := firstUsable_all_none h
  simp [runOp, hr]

/-- Closed instance of the short-circuit theorem: whitespace-only explicit
text over an empty document yields the error with zero provider calls. -/
theorem no_source_short_circuit_witness :
    runOp (fun s => s) .summarize (some "   ") ⟨none, none, none⟩
      = (Except.error PipeError.noSourceText, 0) :=
  no_source_short_circuit (fun s => s) .summarize (some "   ")
    ⟨none, none, none⟩ (by decide)

/-- Cache/lock key: operation type, resolved input identity, and the
normalized parameter set (spec glossary "Fingerprint"); the stable hash is
modelled by the triple itself, which the spec declares uniquely determines
cache eligibility. -/
structure Fingerprint where
  op : Operation
  inputKey : String
  params : List (String × String)
deriving DecidableEq

/-- Job lifecycle states. -/
inductive JobStatus
  | queued
  | running
  | completed
  | failed
deriving DecidableEq

/-- A persisted Job record: identity, fingerprint (operation, input,
parameters), status, result payload, step list and timestamps. -/
structure Job where
  id : Nat
  fp : Fingerprint
  status : JobStatus
  result : Option String
  steps : List String
  createdAt : Nat
  finishedAt : Option Nat
deriving DecidableEq

/-- JobManager store state: the append-only job list, the next fresh job id,
a logical clock, and the number of InferenceProvider invocations made so
far. -/
structure JMState where
  jobs : List Job
  nextId : Nat
  now : Nat
  providerCalls : Nat
deriving DecidableEq

/-- First completed job with the given fingerprint, if any. -/
def findCompleted (fp : Fingerprint) (jobs : List Job) : Option Job :=
  jobs.find? (fun j => decide (j.fp = fp) && decide (j.status = JobStatus.completed))

/-- Tag distinguishing a cache hit from fresh computation (the spec's
`status: existing`). -/
inductive SubmitTag
  | fresh
  | existing
deriving DecidableEq

/-- Modelled from the spec: JobManager.submit (spec section 4.1; the
JobManager source is not in the repository snapshot, only its frontend
callers). When `force` is false and a completed job with the same
fingerprint exists it is returned tagged existing with no provider call;
otherwise the provider runs once and a new completed job is appended. The
provider is a pure function of the fingerprint, per its spec contract. -/
def freshJob (provider : Fingerprint → String) (fp : Fingerprint)
    (st : JMState) : Job :=
  { id := st.nextId, fp := fp, status := JobStatus.completed,
    result := some (provider fp), steps := [], createdAt := st.now,
    finishedAt := some st.now }

def afterFresh (provider : Fingerprint → String) (fp : Fingerprint)
    (st : JMState) : JMState :=
  { jobs := st.jobs ++ [freshJob provider fp st], nextId := st.nextId + 1,
    now := st.now + 1, providerCalls := st.providerCalls + 1 }

def submit (provider : Fingerprint → String) (fp : Fingerprint) (force : Bool)
    (st : JMState) : (Job × SubmitTag) × JMState :=
  match if force then none else findCompleted fp st.jobs with
  | some j => ((j, SubmitTag.existing), st)
  | none => ((freshJob provider fp st, SubmitTag.fresh), afterFresh provider fp st)

theorem findCompleted_append_self (fp : Fingerprint) (jobs : List Job)
    (h : findCompleted fp jobs = none) (j : Job) (hfp : j.fp = fp)
    (hst : j.status = JobStatus.completed) :
    findCompleted fp (jobs ++ [j]) = some j := by
  induction jobs with
  | nil => simp [findCompleted, List.find?, hfp, hst]
  | cons a l ih =>
    simp only [findCompleted, List.cons_append, List.find?] at h ⊢
    cases ha : (decide (a.fp = fp) && decide (a.status = JobStatus.completed)) with
    | true => simp [ha] at h
    | false =>
      simp only [ha] at h ⊢
      exact ih h

/-- C1: starting from a store with no completed job for the fingerprint,
submitting the same request twice with force=false returns on the second
call the very same completed Job (same id and result) tagged existing, and
the InferenceProvider is invoked exactly once across the two calls. -/
theorem submit_idempotent (provider : Fingerprint → String) (fp : Fingerprint)
    (st : JMState) (h : findCompleted fp st.jobs = none) :
    ∃ j1 st1,
      submit provider fp false st = ((j1, SubmitTag.fresh), st1)
      ∧ submit provider fp false st1 = ((j1, SubmitTag.existing), st1)
      ∧ j1.status = JobStatus.completed
      ∧ j1.result = some (provider fp)
      ∧ st1.providerCalls = st.providerCalls + 1 := by
  refine ⟨freshJob provider fp st, afterFresh provider fp st, ?_, ?_, rfl, rfl, rfl⟩
  · simp [submit, h]
  · have hfind :
        findCompleted fp (st.jobs ++ [freshJob provider fp st])
          = some (freshJob provider fp st) :=
      findCompleted_append_self fp st.jobs h _ rfl rfl
    simp [submit, afterFresh, hfind]

/-- Closed instance of the idempotence theorem on a concrete empty store and
a concrete fingerprint. -/
theorem submit_idempotent_witness :
    ∃ j1 st1,
      submit (fun _ => "out") ⟨Operation.summarize, "doc42", [("mode", "concise")]⟩
          false ⟨[], 0, 0, 0⟩ = ((j1, SubmitTag.fresh), st1)
      ∧ submit (fun _ => "out") ⟨Operation.summarize, "doc42", [("mode", "concise")]⟩
          false st1 = ((j1, SubmitTag.existing), st1)
      ∧ j1.status = JobStatus.completed
      ∧ j1.result = some "out"
      ∧ st1.providerCalls = 0 + 1 :=
  submit_idempotent (fun _ => "out")
    ⟨Operation.summarize, "doc42", [("mode", "concise")]⟩ ⟨[], 0, 0, 0⟩ rfl

/-- C2: with force=true, submit creates a new Job (fresh id, appended to the
store) even though a completed Job with the same fingerprint exists, and
every previously stored Job record — in particular the prior completed one,
with all its fields — is left unchanged. -/
theorem submit_force_frame (provider : Fingerprint → String) (fp : Fingerprint)
    (st : JMState) (j0 : Job) (h : findCompleted fp st.jobs = some j0)
    (hwf : ∀ j ∈ st.jobs, j.id < st.nextId) :
    ∃ jn st2,
      submit provider fp true st = ((jn, SubmitTag.fresh), st2)
      ∧ jn.id = st.nextId
      ∧ st2.jobs = st.jobs ++ [jn]
      ∧ st2.jobs.take st.jobs.length = st.jobs
      ∧ j0 ∈ st2.jobs
      ∧ j0.id ≠ jn.id := by
  have hmem : j0 ∈ st.jobs := List.mem_of_find?_eq_some h
  refine ⟨_, _, rfl, rfl, rfl, ?_, ?_, ?_⟩
  · show ((st.jobs ++ [freshJob provider fp st]).take st.jobs.length) = st.jobs
    exact List.take_left st.jobs _
  · exact List.mem_append_left _ hmem
  · exact Nat.ne_of_lt (hwf j0 hmem)

/-- Concrete fingerprint for the force frame witness. -/
def quizFp : Fingerprint := ⟨Operation.quiz, "doc7", [("count", "5")]⟩

/-- Concrete prior completed job for the force frame witness. -/
def oldQuizJob : Job :=
  { id := 0, fp := quizFp, status := JobStatus.completed,
    result := some "old out", steps := [], createdAt := 0,
    finishedAt := some 0 }

/-- Concrete one-job store for the force frame witness. -/
def quizStore : JMState := ⟨[oldQuizJob], 1, 1, 1⟩

/-- Closed instance of the force frame theorem: a one-job store whose
completed job survives a forced re-run untouched. -/
theorem submit_force_frame_witness :
    ∃ jn st2,
      submit (fun _ => "fresh out") quizFp true quizStore
        = ((jn, SubmitTag.fresh), st2)
      ∧ jn.id = quizStore.nextId
      ∧ st2.jobs = quizStore.jobs ++ [jn]
      ∧ st2.jobs.take quizStore.jobs.length = quizStore.jobs
      ∧ oldQuizJob ∈ st2.jobs
      ∧ oldQuizJob.id ≠ jn.id :=
  submit_force_frame (fun _ => "fresh out") quizFp quizStore oldQuizJob
    (by decide) (by decide)

/-- A quiz question as produced by the quiz pipeline: prompt, ordered
options, the index of the single correct option, optional explanation. -/
structure Question where
  prompt : String
  options : List String
  answer_index : Nat
  explanationText : Option String
deriving DecidableEq

/-- Modelled from the spec: the textual normalization applied before
comparing options (case folding on the character sequence). -/
def normOption (s : String) : List Char := s.data.map Char.toLower

/-- Modelled from the spec: the quiz OutputValidator's per-question check
(README "Validation & Cleanup" and spec 4.4: exactly one correct answer,
at least two mutually distinct options after normalization, answer index in
range); the validator source is not in the repository snapshot. -/
def validQuestion (q : Question) : Bool :=
  decide (2 ≤ q.options.length)
    && decide (q.answer_index < q.options.length)
    && decide ((q.options.map normOption).Nodup)

/-- A quiz passes validation when every question does. -/
def validateQuiz (qs : List Question) : Bool := qs.all validQuestion

/-- C5: every question of a quiz accepted by the validator has at least two
options, an answer index within [0, number of options), exactly one correct
option (exactly one position of the option list equals the answer index),
and no two options textually identical after normalization. -/
theorem quiz_question_invariants (qs : List Question)
    (h : validateQuiz qs = true) :
    ∀ q ∈ qs, 2 ≤ q.options.length
      ∧ q.answer_index < q.options.length
      ∧ (List.range q.options.length).count q.answer_index = 1
      ∧ (q.options.map normOption).Nodup := by
  intro q hq
  have hv : validQuestion q = true := by
    have := (List.all_eq_true.mp h) q hq
    exact this
  simp only [validQuestion, Bool.and_eq_true, decide_eq_true_eq] at hv
  obtain ⟨⟨h2, hlt⟩, hnd⟩ := hv
  refine ⟨h2, hlt, ?_, hnd⟩
  exact List.count_eq_one_of_mem (List.nodup_range _) (List.mem_range.mpr hlt)

/-- Concrete valid question used in the validator witness. -/
def sampleQuestion : Question :=
  { prompt := "What is the powerhouse of the cell",
    options := ["Mitochondria", "Nucleus", "Ribosome"],
    answer_index := 0, explanationText := none }

/-- Closed instance of the quiz invariants theorem on a one-question quiz
that passes validation. -/
theorem quiz_question_invariants_witness :
    2 ≤ sampleQuestion.options.length
      ∧ sampleQuestion.answer_index < sampleQuestion.options.length
      ∧ (List.range sampleQuestion.options.length).count
          sampleQuestion.answer_index = 1
      ∧ (sampleQuestion.options.map normOption).Nodup :=
  quiz_question_invariants [sampleQuestion] (by decide) sampleQuestion
    (List.mem_singleton.mpr rfl)

/-- A quiz question as the StudyAids page holds it after normalization. -/
structure UIQuestion where
  id : Nat
  ordinal : Nat
  prompt : String
  options : List String
  answer_index : Nat
deriving DecidableEq

/-- A quiz as the StudyAids page holds it. -/
structure UIQuiz where
  id : Nat
  title : String
  questions : List UIQuestion
deriving DecidableEq

/-- One submitted answer: the question ordinal and the selected option
index, matching apiService.submitQuizAttempt's payload entries. -/
structure AnswerPair where
  ordinal : Nat
  selected_index : Nat
deriving DecidableEq

/-- Embeds StudyAidsPage.handleSubmitQuiz: if any question of the loaded
quiz has no selected answer the submission is refused (none); otherwise the
answers array is built as one pair per question, in question order, pairing
each question's ordinal with the index selected for its id. -/
def handleSubmitQuiz (quiz : UIQuiz) (quizAnswers : Nat → Option Nat) :
    Option (List AnswerPair) :=
  if (quiz.questions.filter (fun q => (quizAnswers q.id).isNone)).length > 0
  then none
  else some (quiz.questions.map
    (fun q => ⟨q.ordinal, (quizAnswers q.id).getD 0⟩))

/-- C9: an attempt is submitted only when every question has a selected
answer, and the submitted array is exactly one (ordinal, selected index)
pair per question of the quiz, in the quiz's question order, each selected
index being the one chosen for that question. -/
theorem submit_quiz_complete (quiz : UIQuiz) (quizAnswers : Nat → Option Nat)
    (arr : List AnswerPair) (h : handleSubmitQuiz quiz quizAnswers = some arr) :
    (∀ q ∈ quiz.questions,
        quizAnswers q.id = some ((quizAnswers q.id).getD 0))
    ∧ arr = quiz.questions.map
        (fun q => ⟨q.ordinal, (quizAnswers q.id).getD 0⟩) := by
  by_cases hu :
      (quiz.questions.filter (fun q => (quizAnswers q.id).isNone)).length > 0
  · simp [handleSubmitQuiz, hu] at h
  · have hnil :
        quiz.questions.filter (fun q => (quizAnswers q.id).isNone) = [] := by
      have : (quiz.questions.filter
          (fun q => (quizAnswers q.id).isNone)).length = 0 := by omega
      exact List.length_eq_zero.mp this
    have hall : ∀ q ∈ quiz.questions, quizAnswers q.id ≠ none := by
      intro q hq
      have := List.filter_eq_nil_iff.mp hnil q hq
      simpa using this
    constructor
    · intro q hq
      cases hqa : quizAnswers q.id with
      | none => exact absurd hqa (hall q hq)
      | some v => simp [hqa]
    · have : handleSubmitQuiz quiz quizAnswers
          = some (quiz.questions.map
              (fun q => ⟨q.ordinal, (quizAnswers q.id).getD 0⟩)) := by
        simp [handleSubmitQuiz, hu]
      rw [this] at h
      exact (Option.some_inj.mp h).symm

/-- Concrete two-question quiz for the submission witness. -/
def sampleQuiz : UIQuiz :=
  { id := 3, title := "Cells",
    questions :=
      [⟨10, 1, "q one", ["a", "b"], 0⟩, ⟨11, 2, "q two", ["c", "d"], 1⟩] }

/-- Concrete selected answers for the submission witness: question 10 got
option 1, question 11 got option 0. -/
def sampleAnswers (i : Nat) : Option Nat :=
  if i = 10 then some 1 else if i = 11 then some 0 else none

/-- Closed instance of the submission theorem: both questions answered, the
payload is the two ordinal-indexed pairs in quiz order. -/
theorem submit_quiz_complete_witness :
    (∀ q ∈ sampleQuiz.questions,
        sampleAnswers q.id = some ((sampleAnswers q.id).getD 0))
    ∧ [(⟨1, 1⟩ : AnswerPair), ⟨2, 0⟩] = sampleQuiz.questions.map
        (fun q => ⟨q.ordinal, (sampleAnswers q.id).getD 0⟩) :=
  submit_quiz_complete sampleQuiz sampleAnswers [⟨1, 1⟩, ⟨2, 0⟩] (by decide)

/-- The ProcessPage result slots: transcription, summary, translation. -/
structure ProcessResults where
  transcription : Option String
  summaryText : Option String
  translationText : Option String
deriving DecidableEq

/-- The ProcessPage per-action processing flags. -/
structure ProcessingFlags where
  transcribeBusy : Bool
  summaryBusy : Bool
  translateBusy : Bool
deriving DecidableEq

/-- Record of the parameters used by the last translation run. -/
structure TranslateRun where
  targetLang : String
  sourceLang : String
deriving DecidableEq

/-- The slice of ProcessPage state touched by the reset-on-document-change
effect. -/
structure ProcessPageState where
  results : ProcessResults
  lastSummaryModeRun : Option String
  lastTranslateRun : Option TranslateRun
  processingFlags : ProcessingFlags
  prevDocId : Option Nat
deriving DecidableEq

/-- Embeds the ProcessPage reset-on-document-change effect: when the
selected document id is present (JS-truthy, so a numeric id 0 counts as
absent) and differs from the previously recorded id, all results, last-run
records and processing flags are cleared and the new id is recorded;
otherwise the state is untouched. -/
def resetOnDocChange (selectedDocId : Option Nat) (st : ProcessPageState) :
    ProcessPageState :=
  match selectedDocId with
  | none => st
  | some currentId =>
    if currentId ≠ 0 ∧ st.prevDocId ≠ some currentId then
      { results := ⟨none, none, none⟩, lastSummaryModeRun := none,
        lastTranslateRun := none, processingFlags := ⟨false, false, false⟩,
        prevDocId := some currentId }
    else st

/-- C10: when the selected document changes to a different (nonzero)
document id, the effect clears every displayed result, both last-run
parameter records and all per-action processing flags, and records the new
id, so subsequently displayed results stem from the selected document. -/
theorem reset_on_doc_change (st : ProcessPageState) (i : Nat) (h0 : i ≠ 0)
    (hne : st.prevDocId ≠ some i) :
    (resetOnDocChange (some i) st).results = ⟨none, none, none⟩
    ∧ (resetOnDocChange (some i) st).lastSummaryModeRun = none
    ∧ (resetOnDocChange (some i) st).lastTranslateRun = none
    ∧ (resetOnDocChange (some i) st).processingFlags = ⟨false, false, false⟩
    ∧ (resetOnDocChange (some i) st).prevDocId = some i := by
  simp [resetOnDocChange, h0, hne]

/-- Concrete dirty ProcessPage state for the reset witness: stale results
from document 7. -/
def staleState : ProcessPageState :=
  { results := ⟨some "old transcript", some "old summary", some "old output"⟩,
    lastSummaryModeRun := some "concise",
    lastTranslateRun := some ⟨"es", ""⟩,
    processingFlags := ⟨false, true, false⟩,
    prevDocId := some 7 }

/-- Closed instance of the reset theorem: switching from document 7 to
document 42 clears every slot. -/
theorem reset_on_doc_change_witness :
    (resetOnDocChange (some 42) staleState).results = ⟨none, none, none⟩
    ∧ (resetOnDocChange (some 42) staleState).lastSummaryModeRun = none
    ∧ (resetOnDocChange (some 42) staleState).lastTranslateRun = none
    ∧ (resetOnDocChange (some 42) staleState).processingFlags
        = ⟨false, false, false⟩
    ∧ (resetOnDocChange (some 42) staleState).prevDocId = some 42 :=
  reset_on_doc_change staleState 42 (by decide) (by decide)

/-- Outcome of executing one pipeline stage on its input text. -/
inductive StepOutcome
  | ok (out : String)
  | fail (msg : String)
deriving DecidableEq

/-- Persisted record of one executed step of a composite job. -/
structure StepRecord where
  name : String
  status : JobStatus
  output : Option String
  errorMsg : Option String
deriving DecidableEq

/-- Modelled from the spec: the composite-job step loop (spec 4.1; the
JobManager source is not in the repository snapshot). Steps run strictly in
declared order, each step's output feeding the next step's input; the first
failure stops the loop, recording the failed step, and later steps get no
record at all. -/
def runSteps (exec : String → String → StepOutcome) (input : String) :
    List String → List StepRecord × Except (String × String) String
  | [] => ([], Except.ok input)
  | n :: ns =>
    match exec n input with
    | StepOutcome.ok out =>
      let rest := runSteps exec out ns
      (⟨n, JobStatus.completed, some out, none⟩ :: rest.1, rest.2)
    | StepOutcome.fail msg =>
      ([⟨n, JobStatus.failed, none, some msg⟩], Except.error (n, msg))

/-- The composite job record the step loop persists: overall status, the
step records, and the failing step's name and cause when it failed. -/
structure CompositeJob where
  status : JobStatus
  steps : List StepRecord
  failure : Option (String × String)
deriving DecidableEq

/-- Modelled from the spec: driving a composite job — the job completes when
every step does and is marked failed with the failing step's name and cause
otherwise. -/
def runComposite (exec : String → String → StepOutcome) (input : String)
    (stepNames : List String) : CompositeJob :=
  match runSteps exec input stepNames with
  | (recs, Except.ok _) => ⟨JobStatus.completed, recs, none⟩
  | (recs, Except.error e) => ⟨JobStatus.failed, recs, some e⟩

theorem runSteps_error_decomp (exec : String → String → StepOutcome)
    (stepNames : List String) :
    ∀ (input : String) (n msg : String),
      (runSteps exec input stepNames).2 = Except.error (n, msg) →
      ∃ done,
        (runSteps exec input stepNames).1
          = done ++ [⟨n, JobStatus.failed, none, some msg⟩]
        ∧ (∀ r ∈ done,
            r.status = JobStatus.completed ∧ r.output.isSome = true)
        ∧ done.length < stepNames.length
        ∧ ((runSteps exec input stepNames).1).map StepRecord.name
            = stepNames.take (done.length + 1)
        ∧ done = (runSteps exec input (stepNames.take done.length)).1 := by
  induction stepNames with
  | nil => intro input n msg h; simp [runSteps] at h
  | cons s ss ih =>
    intro input n msg h
    cases hex : exec s input with
    | ok out =>
      simp only [runSteps, hex] at h
      obtain ⟨done, hd1, hd2, hd3, hd4, hd5⟩ := ih out n msg h
      refine ⟨⟨s, JobStatus.completed, some out, none⟩ :: done, ?_, ?_, ?_, ?_, ?_⟩
      · simp only [runSteps, hex, List.cons_append]
        rw [hd1]
      · intro r hr
        rcases List.mem_cons.mp hr with hr | hr
        · subst hr; exact ⟨rfl, rfl⟩
        · exact hd2 r hr
      · simp only [List.length_cons]
        omega
      · simp only [runSteps, hex, List.map_cons, List.length_cons,
          List.take_succ_cons]
        rw [hd4]
      · simp only [List.length_cons, List.take_succ_cons, runSteps, hex]
        rw [← hd5]
    | fail m =>
      simp only [runSteps, hex] at h
      have hinj : (s, m) = (n, msg) := Except.error.inj h
      have hs : s = n := congrArg Prod.fst hinj
      have hm : m = msg := congrArg Prod.snd hinj
      subst hs
      subst hm
      refine ⟨[], ?_, ?_, ?_, ?_, ?_⟩
      · simp [runSteps, hex]
      · intro r hr; simp at hr
      · simp
      · simp [runSteps, hex]
      · simp [runSteps]

/-- C8: when a composite job's step sequence fails at some step, the job is
marked failed with that step's name and cause recorded, the steps after the
failing one are never attempted (the persisted records cover exactly the
declared prefix up to the failure), and the already-completed earlier steps
keep exactly the records — with their outputs — that running just that
prefix produces. -/
theorem composite_failure_isolation (exec : String → String → StepOutcome)
    (input : String) (stepNames : List String) (n msg : String)
    (h : (runComposite exec input stepNames).failure = some (n, msg)) :
    (runComposite exec input stepNames).status = JobStatus.failed
    ∧ ∃ done,
        (runComposite exec input stepNames).steps
          = done ++ [⟨n, JobStatus.failed, none, some msg⟩]
        ∧ (∀ r ∈ done,
            r.status = JobStatus.completed ∧ r.output.isSome = true)
        ∧ done.length < stepNames.length
        ∧ ((runComposite exec input stepNames).steps).map StepRecord.name
            = stepNames.take (done.length + 1)
        ∧ done = (runSteps exec input (stepNames.take done.length)).1 := by
  have herr : (runSteps exec input stepNames).2 = Except.error (n, msg) := by
    unfold runComposite at h
    cases hrun : runSteps exec input stepNames with
    | mk recs res =>
      rw [hrun] at h
      cases res with
      | ok v => simp at h
      | error e =>
        simp at h
        rw [h]
  have hjob : runComposite exec input stepNames
      = ⟨JobStatus.failed, (runSteps exec input stepNames).1, some (n, msg)⟩ := by
    unfold runComposite
    cases hrun : runSteps exec input stepNames with
    | mk recs res =>
      rw [hrun] at herr
      simp only at herr
      rw [herr]
  obtain ⟨done, hd1, hd2, hd3, hd4, hd5⟩ :=
    runSteps_error_decomp exec stepNames input n msg herr
  rw [hjob]
  exact ⟨rfl, done, hd1, hd2, hd3, hd4, hd5⟩

/-- Concrete step executor for the composite witness: transcribe succeeds,
summarize fails, translate would succeed but must never run. -/
def sampleExec (name : String) (input : String) : StepOutcome :=
  if name = "summarize" then StepOutcome.fail "provider timeout"
  else StepOutcome.ok (input ++ "+" ++ name)

/-- Closed instance of the failure isolation theorem on the composite
transcribe, summarize, translate: the job fails at summarize, keeps the
transcribe record with its output, and never attempts translate. -/
theorem composite_failure_isolation_witness :
    (runComposite sampleExec "src" ["transcribe", "summarize", "translate"]).status
      = JobStatus.failed
    ∧ ∃ done,
        (runComposite sampleExec "src"
            ["transcribe", "summarize", "translate"]).steps
          = done ++ [⟨"summarize", JobStatus.failed, none,
              some "provider timeout"⟩]
        ∧ (∀ r ∈ done,
            r.status = JobStatus.completed ∧ r.output.isSome = true)
        ∧ done.length < (["transcribe", "summarize", "translate"] : List String).length
        ∧ ((runComposite sampleExec "src"
            ["transcribe", "summarize", "translate"]).steps).map StepRecord.name
            = (["transcribe", "summarize", "translate"] : List String).take
                (done.length + 1)
        ∧ done = (runSteps sampleExec "src"
            ((["transcribe", "summarize", "translate"] : List String).take
              done.length)).1 :=
  composite_failure_isolation sampleExec "src"
    ["transcribe", "summarize", "translate"] "summarize" "provider timeout"
    (by decide)

/-- State of the single-flight lock registry: the fingerprints with an
execution currently in flight. -/
structure LockState where
  inflight : List Fingerprint
deriving DecidableEq

/-- Events on the single-flight registry: a caller starts an execution for a
fingerprint, a second caller joins an in-flight one, or an execution
finishes. -/
inductive SFEvent
  | start (fp : Fingerprint)
  | join (fp : Fingerprint)
  | finish (fp : Fingerprint)

/-- Modelled from the spec: the single-flight discipline (spec 4.1/5; the
lock registry source is not in the repository snapshot, the frontend mirrors
it with per-id promise caches in JobDetail). Starting an execution requires
that its fingerprint is not already in flight; a caller with an in-flight
fingerprint can only join; finishing releases the fingerprint. -/
inductive SFStep : LockState → SFEvent → LockState → Prop
  | start (s : LockState) (fp : Fingerprint) (h : fp ∉ s.inflight) :
      SFStep s (SFEvent.start fp) ⟨fp :: s.inflight⟩
  | join (s : LockState) (fp : Fingerprint) (h : fp ∈ s.inflight) :
      SFStep s (SFEvent.join fp) s
  | finish (s : LockState) (fp : Fingerprint) :
      SFStep s (SFEvent.finish fp) ⟨s.inflight.erase fp⟩

/-- Registry states reachable from the empty registry. -/
inductive SFReachable : LockState → Prop
  | init : SFReachable ⟨[]⟩
  | next {s t : LockState} {e : SFEvent} :
      SFReachable s → SFStep s e t → SFReachable t

/-- C6: in every reachable registry state, each fingerprint has at most one
execution in flight (the in-flight list never repeats a fingerprint); a
second caller for an in-flight fingerprint can join it but can never start
a second execution of it; and a caller with any fingerprint not in flight —
in particular any different fingerprint — can always start immediately. -/
theorem single_flight_discipline (s : LockState) (h : SFReachable s) :
    s.inflight.Nodup
    ∧ (∀ fp, fp ∈ s.inflight → SFStep s (SFEvent.join fp) s)
    ∧ (∀ fp, fp ∈ s.inflight → ∀ t, ¬ SFStep s (SFEvent.start fp) t)
    ∧ (∀ fp, fp ∉ s.inflight →
        SFStep s (SFEvent.start fp) ⟨fp :: s.inflight⟩) := by
  have hnd : s.inflight.Nodup := by
    induction h with
    | init => exact List.nodup_nil
    | next hr hs ih =>
      cases hs with
      | start fp hnot => exact List.Nodup.cons hnot ih
      | join fp hmem => exact ih
      | finish fp => exact List.Nodup.erase fp ih
  refine ⟨hnd, ?_, ?_, ?_⟩
  · intro fp hmem
    exact SFStep.join s fp hmem
  · intro fp hmem t hstep
    cases hstep with
    | start _ hnot => exact hnot hmem
  · intro fp hnot
    exact SFStep.start s fp hnot

/-- Closed instance of the single-flight theorem: after starting one
execution, its fingerprint is uniquely in flight, a duplicate start is
impossible, and a different fingerprint can still start. -/
theorem single_flight_discipline_witness :
    (LockState.mk [quizFp]).inflight.Nodup
    ∧ (∀ fp, fp ∈ (LockState.mk [quizFp]).inflight →
        SFStep ⟨[quizFp]⟩ (SFEvent.join fp) ⟨[quizFp]⟩)
    ∧ (∀ fp, fp ∈ (LockState.mk [quizFp]).inflight →
        ∀ t, ¬ SFStep ⟨[quizFp]⟩ (SFEvent.start fp) t)
    ∧ (∀ fp, fp ∉ (LockState.mk [quizFp]).inflight →
        SFStep ⟨[quizFp]⟩ (SFEvent.start fp) ⟨fp :: [quizFp]⟩) :=
  single_flight_discipline ⟨[quizFp]⟩
    (SFReachable.next SFReachable.init
      (SFStep.start ⟨[]⟩ quizFp (List.not_mem_nil quizFp)))

/-- Modelled from the spec: the Chunker (spec 4.3; the chunker source is not
in the repository snapshot, its behaviour documented in the backend
summarization doc). The text is given as its list of boundary units
(sentences); a text fitting the maximum unit size S is one segment,
otherwise the first S units form a segment and chunking continues from
position S - O so that adjacent segments share an overlap window of O
units. A degenerate configuration with overlap at least the unit size
yields a single segment. -/
def chunk {α : Type} (S O : Nat) (xs : List α) : List (List α) :=
  if xs.length ≤ S ∨ S ≤ O then [xs]
  else xs.take S :: chunk S O (xs.drop (S - O))
termination_by xs.length
decreasing_by
  rename_i hc
  push_neg at hc
  obtain ⟨h1, h2⟩ := hc
  simp only [List.length_drop]
  omega

/-- Modelled from the spec: the Stitcher on the summarization and notes
paths — segment outputs are merged and a deduplication pass removes
repeated points, keeping each distinct unit once. -/
def stitch {α : Type} [DecidableEq α] (segOutputs : List (List α)) : List α :=
  segOutputs.flatten.dedup

theorem chunk_mem_cover {α : Type} (S O : Nat) :
    ∀ (n : Nat) (xs : List α), xs.length ≤ n →
      ∀ x ∈ xs, ∃ seg ∈ chunk S O xs, x ∈ seg := by
  intro n
  induction n with
  | zero =>
    intro xs hlen x hx
    have : xs = [] := List.eq_nil_of_length_eq_zero (Nat.le_zero.mp hlen)
    subst this
    simp at hx
  | succ n ih =>
    intro xs hlen x hx
    rw [chunk]
    by_cases hc : xs.length ≤ S ∨ S ≤ O
    · rw [if_pos hc]
      exact ⟨xs, List.mem_singleton.mpr rfl, hx⟩
    · rw [if_neg hc]
      push_neg at hc
      obtain ⟨h1, h2⟩ := hc
      have hsplit : x ∈ xs.take (S - O) ∨ x ∈ xs.drop (S - O) := by
        rw [← List.mem_append, List.take_append_drop]
        exact hx
      rcases hsplit with htk | hdr
      · have hsub : xs.take (S - O) = (xs.take S).take (S - O) := by
          rw [List.take_take, Nat.min_eq_left (Nat.sub_le S O)]
        have : x ∈ xs.take S := by
          rw [hsub] at htk
          exact List.take_subset _ _ htk
        exact ⟨xs.take S, List.mem_cons_self _ _, this⟩
      · have hlen2 : (xs.drop (S - O)).length ≤ n := by
          simp only [List.length_drop]
          omega
        obtain ⟨seg, hseg, hxs⟩ := ih (xs.drop (S - O)) hlen2 x hdr
        exact ⟨seg, List.mem_cons_of_mem _ hseg, hxs⟩

/-- C7: chunking a sentence-split text with maximum unit size S and overlap
O and stitching the per-segment contents back loses no content — every
source unit appears in the stitched result — and the stitched result lists
each distinct unit once (the summarization and notes merge paths). -/
theorem chunk_stitch_no_loss {α : Type} [DecidableEq α] (S O : Nat)
    (xs : List α) :
    (∀ x ∈ xs, x ∈ stitch (chunk S O xs))
    ∧ (stitch (chunk S O xs)).Nodup := by
  constructor
  · intro x hx
    obtain ⟨seg, hseg, hxs⟩ :=
      chunk_mem_cover S O xs.length xs (Nat.le_refl _) x hx
    simp only [stitch, List.mem_dedup, List.mem_flatten]
    exact ⟨seg, hseg, hxs⟩
  · exact List.nodup_dedup _

/-- Concrete five-sentence text for the chunk/stitch witness. -/
def sampleSentences : List String :=
  ["s one", "s two", "s three", "s four", "s five"]

/-- Closed instance of the no-loss theorem: with unit size 2 and overlap 1,
the middle sentence of a five-sentence text survives chunking and
stitching, and the stitched list has no duplicates. -/
theorem chunk_stitch_no_loss_witness :
    "s three" ∈ stitch (chunk 2 1 sampleSentences)
    ∧ (stitch (chunk 2 1 sampleSentences)).Nodup :=
  ⟨(chunk_stitch_no_loss 2 1 sampleSentences).1 "s three" (by simp [sampleSentences]),
    (chunk_stitch_no_loss 2 1 sampleSentences).2⟩

end IntelliLearn
